import Mathlib

set_option autoImplicit false

/-!
Shallow embedding of the core simulation engine of the cunqa repository.

The main model follows `src/backends/simulators/CUNQA/cunqa_adapters/
cunqa_simulator_adapter.cpp` (`execute_shot_`, `apply_next_instr`,
`CunqaSimulatorAdapter::simulate`).  The Qulacs adapter
(`qulacs_simulator_adapter.cpp`) contains the same scheduler loop, the same
QSEND/QRECV/EXPOSE/RCONTROL stack discipline, the same blocked/finished
bookkeeping, and the same bitstring aggregation; it differs only in the gate
alphabet, in the reset steps of entanglement generation, and in that its
RCONTROL case lacks the `qc_meas.erase` call.  Where a claim cites both files
the CUNQA variant is modelled and the divergence is noted in comments.

Modelling conventions:
- C++ `int` / `std::size_t` indices are modelled as `Int` (only additions and
  the `-1` sentinel comparison occur, no overflow is reachable in the claims);
  `double` gate parameters are carried as opaque `Int` literals, since the
  code only stores and copies them and never computes with them.
- The state-vector kernel is abstracted by a measurement oracle: a list of
  pending measurement outcomes (`rng`); gate applications are recorded in an
  event trace and have no further observable effect on the modelled state,
  which is exactly how `execute_shot_` treats them (only measurement results
  flow into `creg` / `qc_meas` / control flow).
- C++ undefined behaviour that the control flow can actually reach
  (dereferencing the end iterator, `top()`/`pop()` on an empty `std::stack`,
  out-of-bounds `std::vector` indexing) is modelled by setting an `error`
  marker that freezes the machine, so theorems can observe that the branch
  was reached.
- `std::unordered_map` tables are modelled as insertion-ordered association
  lists; `operator[]` on a missing key appends a default-constructed entry,
  as in C++.  The scheduler's range-for iterates over the keys present at
  the start of the round.
-/

namespace Cunqa

/-- Association list lookup; models `find`/`contains` on C++ map types. -/
def alookup {κ α : Type} [DecidableEq κ] (k : κ) : List (κ × α) → Option α
  | [] => none
  | (k', v) :: rest => if k' = k then some v else alookup k rest

/-- Lookup with a default value; models `map.at(k)` where presence is known,
and reads through `operator[]` whose inserted default is irrelevant. -/
def alookupD {κ α : Type} [DecidableEq κ] (k : κ) (d : α) (l : List (κ × α)) : α :=
  (alookup k l).getD d

/-- Key-presence test; models `map.contains(k)` / `find != end`. -/
def acontains {κ α : Type} [DecidableEq κ] (k : κ) (l : List (κ × α)) : Bool :=
  (alookup k l).isSome

/-- Insert-or-assign; models assignment through `operator[]`.  Assignment to
an existing key keeps its position, a new key is appended (C++ insertion). -/
def aset {κ α : Type} [DecidableEq κ] (k : κ) (v : α) : List (κ × α) → List (κ × α)
  | [] => [(k, v)]
  | (k', v') :: rest => if k' = k then (k, v) :: rest else (k', v') :: aset k v rest

/-- Update the value at an existing key, leaving other entries alone. -/
def aupdate {κ α : Type} [DecidableEq κ] (k : κ) (f : α → α) :
    List (κ × α) → List (κ × α)
  | [] => []
  | (k', v) :: rest => if k' = k then (k', f v) :: rest else (k', v) :: aupdate k f rest

/-- Remove the entry with the given key; models `map.erase(k)`. -/
def aerase {κ α : Type} [DecidableEq κ] (k : κ) : List (κ × α) → List (κ × α)
  | [] => []
  | (k', v) :: rest => if k' = k then rest else (k', v) :: aerase k rest

/-- Kernel events recorded by the model: gate applications (with parameters
for the parametric variants), destructive measurements with their outcome,
and the classical-channel measure traffic issued by SEND/RECV. -/
inductive Event where
  | gate (name : String) (qubits : List Int)
  | pgate (name : String) (qubits : List Int) (params : List Int)
  | meas (qubit : Int) (outcome : Nat)
  | sendM (bit : Bool) (qpu : String)
  | recvM (outcome : Nat) (qpu : String)
  deriving DecidableEq, Repr

/-- Canonicalized instructions as dispatched by `apply_next_instr`; each
constructor corresponds to one (group of) `cunqa::constants` case(s) of the
switch.  Fields mirror the JSON fields the case reads. -/
inductive Instr where
  | measure (qubits : List Int) (clbits : List Int)
  | copy (l_clbits : List Int) (r_clbits : List Int)
  | gate1 (name : String) (qubits : List Int)
  | cgate (name : String) (qubits : List Int)
  | ecr (qubits : List Int)
  | rgate (name : String) (qubits : List Int) (params : List Int)
  | crgate (name : String) (qubits : List Int) (params : List Int)
  | swap (qubits : List Int)
  | send (clbits : List Int) (qpus : List String)
  | recv (clbits : List Int) (qpus : List String)
  | cif (clbits : List Int) (instructions : List Instr)
  | qsend (qubits : List Int) (qpus : List String)
  | qrecv (qubits : List Int) (qpus : List String)
  | expose (qubits : List Int) (qpus : List String)
  | rcontrol (qpus : List String) (instructions : List Instr)

/-- Per-task scheduler state; the C++ iterator pair `it`/`end` is modelled by
the instruction list together with a cursor index (`it = begin + cursor`,
`end = begin + circuit.length`).  A default-constructed `TaskState` (as made
by `Ts[key]` on a missing key) has an empty circuit, cursor 0, cleared flags
and an empty id. -/
structure TaskState where
  id : String := ""
  circuit : List Instr := []
  cursor : Nat := 0
  zero_qubit : Int := 0
  zero_clbit : Int := 0
  finished : Bool := false
  blocked : Bool := false
  cat_entangled : Bool := false

/-- Global per-shot state shared by all tasks, as in the C++ `GlobalState`. -/
structure GlobalState where
  n_qubits : Int := 0
  n_clbits : Int := 0
  creg : List (Int × Bool) := []
  qc_meas : List (String × List Nat) := []
  ended : Bool := false
  deriving DecidableEq, Repr

/-- Whole interpreter state for one shot: the task table `Ts`, the global
state `G`, the kernel event trace, the measurement oracle, and the
error/undefined-behaviour marker. -/
structure Shot where
  Ts : List (String × TaskState) := []
  G : GlobalState := {}
  events : List Event := []
  rng : List Nat := []
  error : Option String := none

/-- Outcome of the i-th measurement still pending on the oracle stream
(`executor.apply_measure` returns 0/1; a drained oracle yields 0). -/
def measVal (rng : List Nat) (i : Nat) : Nat :=
  (rng.getD i 0) % 2

/-- Read of `G.creg[k]` through `std::map::operator[]`: returns the stored
bit and the (possibly default-inserted) register. -/
def cregRead (creg : List (Int × Bool)) (k : Int) : Bool × List (Int × Bool) :=
  match alookup k creg with
  | some b => (b, creg)
  | none => (false, aset k false creg)

instance : Inhabited TaskState := ⟨{}⟩

/-- Unblocking write `Ts[key].blocked = false`: assigns through
`operator[]`, so a missing key first receives a default-constructed
`TaskState` (which is then appended to the table). -/
def unblockTask (key : String) (Ts : List (String × TaskState)) :
    List (String × TaskState) :=
  if acontains key Ts then aupdate key (fun t => { t with blocked := false }) Ts
  else Ts ++ [(key, { (default : TaskState) with blocked := false })]

mutual

/-- One dispatch of `apply_next_instr` from `cunqa_simulator_adapter.cpp`.
The task is addressed by id (`T` is a reference into `Ts` in the C++, so
flag writes go through the table).  Measurement outcomes are drawn from the
oracle positions in program order; each case builds the successor state in
one record update whose fields mirror the side effects of the C++ case. -/
def apply_next_instr (tid : String) (s : Shot) (i : Instr) : Shot :=
  if s.error.isSome then s else
  match alookup tid s.Ts with
  | none => s
  | some T =>
    let nq := s.G.n_qubits
    match i with
    | .measure qubits clbits =>
      let m := measVal s.rng 0
      { s with
        G := { s.G with creg := aset ((clbits.headD 0) + T.zero_clbit) (m == 1) s.G.creg },
        events := s.events ++ [.meas ((qubits.headD 0) + T.zero_qubit) m],
        rng := s.rng.drop 1 }
    | .copy l_clbits r_clbits =>
      if l_clbits.length ≠ r_clbits.length then
        { s with error := some "COPY: clbit list lengths differ" }
      else
        let step := fun (creg : List (Int × Bool)) (pr : Int × Int) =>
          let rd := cregRead creg (pr.2 + T.zero_clbit)
          aset (pr.1 + T.zero_clbit) rd.1 rd.2
        { s with G := { s.G with creg := (l_clbits.zip r_clbits).foldl step s.G.creg } }
    | .gate1 name qubits =>
      { s with events := s.events ++ [.gate name [(qubits.headD 0) + T.zero_qubit]] }
    | .cgate name qubits =>
      let control := if qubits.headD 0 = -1 then nq - 1 else (qubits.headD 0) + T.zero_qubit
      { s with events := s.events ++ [.gate name [control, (qubits.getD 1 0) + T.zero_qubit]] }
    | .ecr _ => s
    | .rgate name qubits params =>
      { s with events := s.events ++ [.pgate name [(qubits.headD 0) + T.zero_qubit] params] }
    | .crgate name qubits params =>
      let control := if qubits.headD 0 = -1 then nq - 1 else (qubits.headD 0) + T.zero_qubit
      let evs := s.events ++ [.pgate name [control, (qubits.getD 1 0) + T.zero_qubit] params]
      { s with events := evs }
    | .swap qubits =>
      { s with events := s.events ++
          [.gate "swap" [(qubits.headD 0) + T.zero_qubit, (qubits.getD 1 0) + T.zero_qubit]] }
    | .send clbits qpus =>
      let qpu := qpus.headD ""
      let step := fun (acc : List (Int × Bool) × List Event) (c : Int) =>
        let rd := cregRead acc.1 (c + T.zero_clbit)
        (rd.2, acc.2 ++ [Event.sendM rd.1 qpu])
      let r := clbits.foldl step (s.G.creg, s.events)
      { s with G := { s.G with creg := r.1 }, events := r.2 }
    | .recv clbits qpus =>
      let qpu := qpus.headD ""
      let step := fun (acc : List (Int × Bool) × List Event × List Nat) (c : Int) =>
        let m := measVal acc.2.2 0
        (aset (c + T.zero_clbit) (m == 1) acc.1,
         acc.2.1 ++ [Event.recvM m qpu], acc.2.2.drop 1)
      let r := clbits.foldl step (s.G.creg, s.events, s.rng)
      { s with G := { s.G with creg := r.1 }, events := r.2.1, rng := r.2.2 }
    | .cif clbits instructions =>
      let rd := cregRead s.G.creg ((clbits.headD 0) + T.zero_clbit)
      let s1 := { s with G := { s.G with creg := rd.2 } }
      if rd.1 then dispatchList tid s1 instructions else s1
    | .qsend qubits qpus =>
      let q := (qubits.headD 0) + T.zero_qubit
      let result := measVal s.rng 0
      let communication_result := measVal s.rng 1
      let qm := aset T.id
        (communication_result :: result :: alookupD T.id [] s.G.qc_meas) s.G.qc_meas
      let evs := s.events ++
        [.gate "h" [nq - 2], .gate "cx" [nq - 2, nq - 1],
         .gate "cx" [q, nq - 2], .gate "h" [q],
         .meas q result, .meas (nq - 2) communication_result] ++
        (if result ≠ 0 then [Event.gate "x" [q]] else []) ++
        (if communication_result ≠ 0 then [Event.gate "x" [nq - 2]] else [])
      { s with
        G := { s.G with qc_meas := qm },
        events := evs,
        rng := s.rng.drop 2,
        Ts := unblockTask (qpus.headD "") s.Ts }
    | .qrecv qubits qpus =>
      let p := qpus.headD ""
      if ¬ acontains p s.G.qc_meas then
        { s with Ts := aupdate tid (fun t => { t with blocked := true }) s.Ts }
      else
        match alookupD p [] s.G.qc_meas with
        | meas1 :: meas2 :: rest =>
          let q := (qubits.headD 0) + T.zero_qubit
          let communication_result := measVal s.rng 0
          let evs := s.events ++
            (if meas1 ≠ 0 then [Event.gate "x" [nq - 1]] else []) ++
            (if meas2 ≠ 0 then [Event.gate "z" [nq - 1]] else []) ++
            [.gate "swap" [nq - 1, q], .meas (nq - 1) communication_result] ++
            (if communication_result ≠ 0 then [Event.gate "x" [nq - 1]] else [])
          { s with
            G := { s.G with qc_meas := aset p rest s.G.qc_meas },
            events := evs,
            rng := s.rng.drop 1 }
        | _ =>
          { s with error := some "QRECV: top/pop on empty qc_meas stack (C++ UB)" }
    | .expose qubits qpus =>
      let p := qpus.headD ""
      let q := (qubits.headD 0) + T.zero_qubit
      if ¬ T.cat_entangled then
        let meas1 := measVal s.rng 0
        let meas2 := measVal s.rng 1
        let result := measVal s.rng 2
        let qm := aset T.id (result :: alookupD T.id [] s.G.qc_meas) s.G.qc_meas
        let evs := s.events ++
          [.meas (nq - 1) meas1, .meas (nq - 2) meas2] ++
          (if meas1 ≠ 0 then [Event.gate "x" [nq - 1]] else []) ++
          (if meas2 ≠ 0 then [Event.gate "x" [nq - 1]] else []) ++
          [.gate "h" [nq - 2], .gate "cx" [nq - 2, nq - 1],
           .gate "cx" [q, nq - 2], .meas (nq - 2) result]
        let ts := unblockTask p
          (aupdate tid (fun t => { t with cat_entangled := true, blocked := true }) s.Ts)
        { s with
          G := { s.G with qc_meas := qm },
          events := evs,
          rng := s.rng.drop 3,
          Ts := ts }
      else
        match alookupD p [] s.G.qc_meas with
        | m :: rest =>
          let evs := s.events ++ (if m ≠ 0 then [Event.gate "z" [q]] else [])
          { s with
            G := { s.G with qc_meas := aset p rest s.G.qc_meas },
            events := evs,
            Ts := aupdate tid (fun t => { t with cat_entangled := false }) s.Ts }
        | [] =>
          { s with error := some "EXPOSE: top/pop on empty qc_meas stack (C++ UB)" }
    | .rcontrol qpus instructions =>
      let p := qpus.headD ""
      if ¬ acontains p s.G.qc_meas then
        { s with Ts := aupdate tid (fun t => { t with blocked := true }) s.Ts }
      else
        match alookupD p [] s.G.qc_meas with
        | meas2 :: rest =>
          let evs1 := s.events ++ (if meas2 ≠ 0 then [Event.gate "x" [nq - 1]] else [])
          let s1 := { s with
            G := { s.G with qc_meas := aset p rest s.G.qc_meas },
            events := evs1 }
          let s2 := dispatchList tid s1 instructions
          if s2.error.isSome then s2 else
          let result := measVal s2.rng 0
          let qm := aerase p
            (aset T.id (result :: alookupD T.id [] s2.G.qc_meas) s2.G.qc_meas)
          let evs2 := s2.events ++ [.gate "h" [nq - 1], .meas (nq - 1) result]
          { s2 with
            G := { s2.G with qc_meas := qm },
            events := evs2,
            rng := s2.rng.drop 1,
            Ts := unblockTask p s2.Ts }
        | [] =>
          { s with error := some "RCONTROL: top/pop on empty qc_meas stack (C++ UB)" }
/-- Dispatch of a nested instruction sequence (the `for (sub_inst : ...)`
loops of the CIF and RCONTROL cases). -/
def dispatchList (tid : String) (s : Shot) : List Instr → Shot
  | [] => s
  | i :: rest => dispatchList tid (apply_next_instr tid s i) rest

end

/-- Body of the scheduler's range-for for one task id:
```
if (T.finished || T.blocked) continue;
apply_next_instr(T, {});
if (!T.blocked) ++T.it;
if (T.it != T.end) G.ended = false; else T.finished = true;
```
A set `error` freezes the state (a C++ exception would unwind the loop).
Dispatching a task whose cursor already sits at the end (possible for a
default-constructed `TaskState` and for an empty circuit) dereferences the
end iterator in C++, which is undefined behaviour; it is modelled by the
error marker. -/
def roundStep (s : Shot) (tid : String) : Shot :=
  if s.error.isSome then s else
  match alookup tid s.Ts with
  | none => s
  | some T =>
    if T.finished || T.blocked then s
    else
      let s1 := match T.circuit.get? T.cursor with
        | some inst => apply_next_instr tid s inst
        | none => { s with error := some "dispatch dereferences the end iterator (C++ UB)" }
      if s1.error.isSome then s1 else
      let s2 := match alookup tid s1.Ts with
        | some T1 =>
          if T1.blocked then s1
          else { s1 with Ts := aupdate tid (fun t => { t with cursor := t.cursor + 1 }) s1.Ts }
        | none => s1
      match alookup tid s2.Ts with
      | some T2 =>
        if T2.cursor ≠ T2.circuit.length then { s2 with G := { s2.G with ended := false } }
        else { s2 with Ts := aupdate tid (fun t => { t with finished := true }) s2.Ts }
      | none => s2

/-- One round of the cooperative scheduler: set `G.ended = true`, then visit
the tasks present at the start of the round in table order. -/
def execRound (s : Shot) : Shot :=
  (s.Ts.map Prod.fst).foldl roundStep { s with G := { s.G with ended := true } }

/-- The `while (!G.ended)` loop, with explicit fuel; `none` means the fuel
ran out before the loop condition became false. -/
def runLoop : Nat → Shot → Option Shot
  | 0, _ => none
  | fuel + 1, s =>
    if s.error.isSome then some s
    else if s.G.ended then some s
    else runLoop fuel (execRound s)

/-- The fields of a `cunqa::QuantumTask` that `execute_shot_` and `simulate`
read: the id, `config.at("num_qubits")`, `config.at("num_clbits")`,
`config.at("shots")`, `config.at("method")` and the canonicalized circuit. -/
structure QTask where
  id : String := ""
  num_qubits : Int := 0
  num_clbits : Int := 0
  shots : Nat := 0
  method : String := ""
  circuit : List Instr := []

instance : Inhabited QTask := ⟨{}⟩

/-- Task-table construction loop of `execute_shot_`: `zero_qubit`/`zero_clbit`
are the running sums of the previously inserted tasks' sizes, and tasks are
keyed by id (`Ts[quantum_task.id] = T`). -/
def initStep (acc : List (String × TaskState) × Int × Int) (qt : QTask) :
    List (String × TaskState) × Int × Int :=
  let T : TaskState :=
    { id := qt.id, circuit := qt.circuit, cursor := 0,
      zero_qubit := acc.2.1, zero_clbit := acc.2.2 }
  (aset qt.id T acc.1, acc.2.1 + qt.num_qubits, acc.2.2 + qt.num_clbits)

/-- Initial per-shot state: task table plus global sizes; two communication
qubits are appended when the batch holds more than one task. -/
def initShot (qts : List QTask) (rng : List Nat) : Shot :=
  let r := qts.foldl initStep ([], 0, 0)
  let nq := if qts.length > 1 then r.2.1 + 2 else r.2.1
  { Ts := r.1,
    G := { n_qubits := nq, n_clbits := r.2.2, creg := [], qc_meas := [], ended := false },
    events := [], rng := rng, error := none }

/-- Bitstring assembly at the end of `execute_shot_`:
`result_bits[G.n_clbits - bitIndex - 1] = value ? '1' : '0'` over the
classical register.  (For an out-of-range key the C++ write is undefined
behaviour; `List.set` ignores it, and theorems assume in-range keys.) -/
def result_bits (n_clbits : Int) (creg : List (Int × Bool)) : List Char :=
  creg.foldl (fun bits kv => bits.set (n_clbits - kv.1 - 1).toNat (if kv.2 then '1' else '0'))
    (List.replicate n_clbits.toNat '0')

/-- One whole shot: build the initial state and run the scheduler loop. -/
def execute_shot (fuel : Nat) (qts : List QTask) (rng : List Nat) : Option Shot :=
  runLoop fuel (initShot qts rng)

/-- Bitstring a finished shot returns. -/
def shotString (s : Shot) : List Char :=
  result_bits s.G.n_clbits s.G.creg

/-- Histogram update `meas_counter[bits]++` (`std::map` with default 0). -/
def countsAdd (counts : List (List Char × Nat)) (b : List Char) :
    List (List Char × Nat) :=
  aset b (alookupD b 0 counts + 1) counts

/-- Shot loop of `CunqaSimulatorAdapter::simulate(classical_channel)`: run
`n` further shots, shot number `i` drawing its measurement outcomes from
`oracle i`.  A shot that hits the error marker aborts the whole simulation
(the C++ exception propagates out of `simulate`). -/
def runShots (fuel : Nat) (qts : List QTask) (oracle : Nat → List Nat) :
    Nat → Nat → List (List Char × Nat) → Option (List (List Char × Nat))
  | _, 0, counts => some counts
  | i, n + 1, counts =>
    match execute_shot fuel qts (oracle i) with
    | none => none
    | some s =>
      if s.error.isSome then none
      else runShots fuel qts oracle (i + 1) n (countsAdd counts (shotString s))

/-- The communication-mode `simulate`: the shot count and the method string
are read from `quantum_tasks[0].config` only; the method is read and then
never used, exactly as in the C++. -/
def simulate (fuel : Nat) (qts : List QTask) (oracle : Nat → List Nat) :
    Option (List (List Char × Nat)) :=
  let shots := (qts.headD default).shots
  let _method := (qts.headD default).method
  runShots fuel qts oracle 0 shots []

/-- Total number of aggregated shots in a histogram. -/
def countsTotal (counts : List (List Char × Nat)) : Nat :=
  (counts.map Prod.snd).sum

/-! Basic properties of the association-list operations. -/

theorem alookup_mem {κ α : Type} [DecidableEq κ] {k : κ} {v : α} :
    ∀ {l : List (κ × α)}, alookup k l = some v → (k, v) ∈ l := by
  intro l
  induction l with
  | nil => intro h; simp [alookup] at h
  | cons kv rest ih =>
    intro h
    rw [alookup] at h
    by_cases hk : kv.1 = k
    · rw [if_pos hk] at h
      injection h with h2
      have hkv : kv = (k, v) := by
        obtain ⟨a, b⟩ := kv
        simp only at hk h2
        rw [hk, h2]
      rw [hkv] at *
      exact List.mem_cons_self _ _
    · rw [if_neg hk] at h
      exact List.mem_cons_of_mem _ (ih h)

theorem alookup_aupdate {κ α : Type} [DecidableEq κ] (k k' : κ) (f : α → α) :
    ∀ l : List (κ × α),
      alookup k (aupdate k' f l) =
        if k' = k then Option.map f (alookup k l) else alookup k l := by
  intro l
  induction l with
  | nil => by_cases h : k' = k <;> simp [aupdate, alookup, h]
  | cons kv rest ih =>
    rw [aupdate]
    by_cases h1 : kv.1 = k'
    · rw [if_pos h1, alookup, alookup]
      by_cases h2 : k' = k
      · simp [h1, h2]
      · have : ¬ kv.1 = k := by rw [h1]; exact h2
        simp [h2, this]
    · rw [if_neg h1, alookup, alookup]
      by_cases h2 : kv.1 = k
      · have : ¬ k' = k := fun he => h1 (by rw [he, h2])
        simp [h2, this]
      · simp [h2, ih]

theorem alookup_append_of_none {κ α : Type} [DecidableEq κ] (k : κ) :
    ∀ (l l2 : List (κ × α)), alookup k l = none →
      alookup k (l ++ l2) = alookup k l2 := by
  intro l l2
  induction l with
  | nil => intro _; rfl
  | cons kv rest ih =>
    intro h
    rw [alookup] at h
    by_cases h1 : kv.1 = k
    · simp [h1] at h
    · rw [List.cons_append, alookup, if_neg h1]
      rw [if_neg h1] at h
      exact ih h

theorem alookup_aset_self {κ α : Type} [DecidableEq κ] (k : κ) (v : α) :
    ∀ l : List (κ × α), alookup k (aset k v l) = some v := by
  intro l
  induction l with
  | nil => simp [aset, alookup]
  | cons kv rest ih =>
    rw [aset]
    by_cases h1 : kv.1 = k
    · rw [if_pos h1, alookup, if_pos rfl]
    · rw [if_neg h1, alookup, if_neg h1]
      exact ih

theorem alookup_aset_ne {κ α : Type} [DecidableEq κ] {k k' : κ} (v : α)
    (hne : k' ≠ k) : ∀ l : List (κ × α), alookup k (aset k' v l) = alookup k l := by
  intro l
  induction l with
  | nil => simp [aset, alookup, hne]
  | cons kv rest ih =>
    rw [aset]
    by_cases h1 : kv.1 = k'
    · rw [if_pos h1, alookup, alookup, if_neg hne]
      have : ¬ kv.1 = k := by rw [h1]; exact hne
      rw [if_neg this]
    · rw [if_neg h1, alookup, alookup]
      by_cases h2 : kv.1 = k
      · simp [h2]
      · rw [if_neg h2, if_neg h2]
        exact ih

theorem alookupD_aset_self {κ α : Type} [DecidableEq κ] (k : κ) (d v : α)
    (l : List (κ × α)) : alookupD k d (aset k v l) = v := by
  rw [alookupD, alookup_aset_self]
  rfl

theorem alookupD_aset_ne {κ α : Type} [DecidableEq κ] {k k' : κ} (d : α) (v : α)
    (hne : k' ≠ k) (l : List (κ × α)) : alookupD k d (aset k' v l) = alookupD k d l := by
  rw [alookupD, alookup_aset_ne v hne, alookupD]

/-! Concrete batches used by the claim theorems.  `qsendTaskA`/`recvTaskB`
form the minimal matched teleportation pair; the other tasks are small
variations used to reach specific branches. -/

/-- Task issuing one QSEND of its qubit 0 to peer task "B". -/
def qsendTaskA : QTask :=
  { id := "A", num_qubits := 1, num_clbits := 1, shots := 2,
    method := "statevector", circuit := [.qsend [0] ["B"]] }

/-- Task issuing the matching QRECV from peer task "A". -/
def recvTaskB : QTask :=
  { id := "B", num_qubits := 1, num_clbits := 1, shots := 5,
    method := "statevector", circuit := [.qrecv [0] ["A"]] }

/-- Task issuing two QRECVs from "A" while only one QSEND pair arrives. -/
def doubleRecvTaskB : QTask :=
  { id := "B", num_qubits := 1, num_clbits := 1, shots := 1,
    method := "statevector", circuit := [.qrecv [0] ["A"], .qrecv [0] ["A"]] }

/-- Single task whose QRECV names a peer that never sends. -/
def deadlockTask : QTask :=
  { id := "B", num_qubits := 1, num_clbits := 1, shots := 1,
    method := "statevector", circuit := [.qrecv [0] ["A"]] }

/-- Task with an empty instruction sequence. -/
def emptyCircTask : QTask :=
  { id := "E", num_qubits := 1, num_clbits := 2, shots := 1,
    method := "statevector", circuit := [] }

/-- Task applying one X gate and writing no classical bit. -/
def xGateTask : QTask :=
  { id := "X", num_qubits := 1, num_clbits := 2, shots := 1,
    method := "statevector", circuit := [.gate1 "x" [0]] }

/-- Claim C1, counterexample.  A batch holding a QRECV with no matching QSEND
does not raise any error: the scheduler loop exits normally after the second
round, silently terminating the shot with task "B" still unfinished and
blocked and a bitstring emitted from the partial register.  There is no
deadlock detection and no `DeadlockError` anywhere in `execute_shot_`, so
the claimed behaviour (raising `DeadlockError` on a zero-progress round) is
false at this input: the code silently terminates instead. -/
theorem C1_counterexample :
    (execute_shot 6 [deadlockTask] []).map
        (fun s => (s.error, s.G.ended,
          s.Ts.map (fun kv => (kv.1, kv.2.finished, kv.2.blocked)), shotString s))
      = some (none, true, [("B", false, true)], ['0']) := by rfl

/-- Claim C1, amended.  A scheduler round that makes zero progress leaves
every not-finished task blocked; from any such state the loop performs one
more round in which every task is skipped (`T.finished || T.blocked`), the
`G.ended` flag set at the head of the round survives, and the `while` loop
exits returning the state unchanged except for `ended := true` — the shot
is silently terminated with its blocked tasks unfinished, with no error
raised and no hang. -/
theorem C1_theorem (s : Shot) (fuel : Nat)
    (herr : s.error = none) (hend : s.G.ended = false)
    (hall : ∀ kv ∈ s.Ts, kv.2.finished = true ∨ kv.2.blocked = true) :
    runLoop (fuel + 2) s = some { s with G := { s.G with ended := true } } := by
  have hkeys : ∀ tids (s' : Shot), s'.Ts = s.Ts → s'.error = none →
      List.foldl roundStep s' tids = s' := by
    intro tids
    induction tids with
    | nil => intro s' _ _; rfl
    | cons tid rest ih =>
      intro s' hTs herr'
      have hstep : roundStep s' tid = s' := by
        rw [roundStep, herr']
        simp only [Option.isSome_none, Bool.false_eq_true, if_false]
        cases h : alookup tid s'.Ts with
        | none => rfl
        | some T =>
          have hmem : (tid, T) ∈ s.Ts := by rw [← hTs]; exact alookup_mem h
          rcases hall _ hmem with hf | hb
          · have hf' : T.finished = true := hf
            simp [hf']
          · have hb' : T.blocked = true := hb
            simp [hb']
      rw [List.foldl_cons, hstep]
      exact ih s' hTs herr'
  have hround : execRound s = { s with G := { s.G with ended := true } } := by
    rw [execRound]
    exact hkeys _ _ rfl herr
  show runLoop (fuel + 1 + 1) s = _
  rw [runLoop, herr]
  simp only [Option.isSome_none, Bool.false_eq_true, if_false, hend]
  rw [hround]
  cases fuel with
  | zero => rw [runLoop, herr]; simp
  | succ m => rw [runLoop, herr]; simp

/-- Claim C1, witness for the amended theorem: a state with one blocked,
not-finished task exits the loop unchanged apart from `ended := true`. -/
theorem C1_witness :
    runLoop 2 { Ts := [("B", { id := "B", blocked := true })], G := { n_clbits := 1 } }
      = some { Ts := [("B", { id := "B", blocked := true })],
               G := { n_clbits := 1, ended := true } } :=
  C1_theorem _ 0 rfl rfl (by
    intro kv hkv
    cases hkv with
    | head => right; rfl
    | tail _ h => cases h)

/-- Claim C2.  The QRECV guard only checks `qc_meas.contains(peer)`, never
emptiness.  First half: with the key absent the dispatch does block without
touching anything else.  Second half (the bug): after one QSEND/QRECV pair
completes, the key "A" remains mapped to an *empty* stack (QRECV pops
without erasing), so a second QRECV from "A" passes the contains-check and
executes `top()`/`pop()` on an empty `std::stack` — undefined behaviour in
C++, the modelled error marker here — with `blocked` left false, refuting
"the pop-from-empty-stack branch is never reached". -/
theorem C2_theorem :
    ((alookup "B" (apply_next_instr "B" (initShot [qsendTaskA, doubleRecvTaskB] [])
        (.qrecv [0] ["A"])).Ts).map (fun t => (t.blocked, t.cursor)) = some (true, 0) ∧
     (apply_next_instr "B" (initShot [qsendTaskA, doubleRecvTaskB] [])
        (.qrecv [0] ["A"])).G.qc_meas = [] ∧
     (apply_next_instr "B" (initShot [qsendTaskA, doubleRecvTaskB] [])
        (.qrecv [0] ["A"])).events = []) ∧
    (execute_shot 6 [qsendTaskA, doubleRecvTaskB] [1, 0, 1]).map
        (fun s => (s.error, (alookup "B" s.Ts).map (fun t => (t.blocked, t.cursor))))
      = some (some "QRECV: top/pop on empty qc_meas stack (C++ UB)", some (false, 1)) := by
  exact ⟨⟨rfl, rfl, rfl⟩, rfl⟩

/-- Claim C4, counterexample.  The minimal well-formed teleportation batch
(one QSEND in "A", the matching QRECV in "B") finishes every task without
error, yet at end of shot `qc_meas` still contains the entry "A" mapped to
an empty stack: QRECV pops the two values but never erases the key, so the
map is *not* empty, refuting "no peer key remains, not even one mapped to an
empty stack". -/
theorem C4_counterexample :
    (execute_shot 6 [qsendTaskA, recvTaskB] [1, 0, 1]).map
        (fun s => (s.error, s.G.qc_meas, s.Ts.map (fun kv => (kv.1, kv.2.finished))))
      = some (none, [("A", [])], [("A", true), ("B", true)]) ∧
    ([("A", [])] : List (String × List Nat)) ≠ [] := by
  exact ⟨rfl, by simp⟩

set_option maxHeartbeats 2000000 in
/-- Claim C4, amended.  For the matched QSEND/QRECV pair, over every
measurement oracle: the shot ends with all tasks finished, no error, and
every stack in `qc_meas` empty — but the sender's key itself remains, mapped
to the empty stack (in the CUNQA adapter only the RCONTROL case erases a
`qc_meas` key; in the Qulacs adapter nothing ever erases one). -/
theorem C4_theorem (rng : List Nat) :
    (execute_shot 6 [qsendTaskA, recvTaskB] rng).map
        (fun s => (s.error, s.G.qc_meas,
          s.Ts.map (fun kv => (kv.1, kv.2.finished, kv.2.blocked))))
      = some (none, [("A", [])], [("A", true, false), ("B", true, false)]) := by rfl

/-- Claim C10.  Dispatching a QSEND, or a first EXPOSE, whose `qpus[0]`
names no task raises no error: the `Ts[qpus[0]].blocked = false` write goes
through `operator[]`, inserting a default-constructed `TaskState` (cleared
flags, empty id and circuit, cursor at its default) under the unknown key,
and the key is part of the task table the next scheduler round iterates
over. -/
theorem C10_theorem (s : Shot) (tid p : String) (T : TaskState) (qs : List Int)
    (herr : s.error = none)
    (hT : alookup tid s.Ts = some T)
    (hmiss : acontains p s.Ts = false)
    (hcat : T.cat_entangled = false) :
    ((apply_next_instr tid s (.qsend qs [p])).error = none ∧
      alookup p (apply_next_instr tid s (.qsend qs [p])).Ts =
        some { (default : TaskState) with blocked := false } ∧
      p ∈ (apply_next_instr tid s (.qsend qs [p])).Ts.map Prod.fst) ∧
    ((apply_next_instr tid s (.expose qs [p])).error = none ∧
      alookup p (apply_next_instr tid s (.expose qs [p])).Ts =
        some { (default : TaskState) with blocked := false } ∧
      p ∈ (apply_next_instr tid s (.expose qs [p])).Ts.map Prod.fst) := by
  have hnone : alookup p s.Ts = none := by
    rw [acontains] at hmiss
    cases h : alookup p s.Ts with
    | none => rfl
    | some v => rw [h] at hmiss; simp at hmiss
  have hne : tid ≠ p := by
    intro he
    rw [he, hnone] at hT
    cases hT
  have hub : unblockTask p s.Ts = s.Ts ++ [(p, { (default : TaskState) with blocked := false })] := by
    rw [unblockTask, hmiss]
    simp
  have happ : ∀ l : List (String × TaskState), alookup p l = none →
      alookup p (l ++ [(p, { (default : TaskState) with blocked := false })]) =
        some { (default : TaskState) with blocked := false } := by
    intro l hl
    rw [alookup_append_of_none p l _ hl, alookup, if_pos rfl]
  constructor
  · rw [apply_next_instr]
    rw [herr]
    simp only [Option.isSome_none, Bool.false_eq_true, if_false, hT]
    refine ⟨?_, ?_, ?_⟩
    · trivial
    · show alookup p (unblockTask p s.Ts) = _
      rw [hub]
      exact happ _ hnone
    · show p ∈ (unblockTask p s.Ts).map Prod.fst
      rw [hub, List.map_append]
      exact List.mem_append_right _ (by simp)
  · rw [apply_next_instr]
    rw [herr]
    simp only [Option.isSome_none, Bool.false_eq_true, if_false, hT, hcat]
    have hnone2 : alookup p (aupdate tid
        (fun t => { t with cat_entangled := true, blocked := true }) s.Ts) = none := by
      rw [alookup_aupdate, if_neg hne, hnone]
    have hub2 : unblockTask p (aupdate tid
        (fun t => { t with cat_entangled := true, blocked := true }) s.Ts) =
        aupdate tid (fun t => { t with cat_entangled := true, blocked := true }) s.Ts ++
          [(p, { (default : TaskState) with blocked := false })] := by
      rw [unblockTask, acontains, hnone2]
      simp
    refine ⟨?_, ?_, ?_⟩
    · trivial
    · show alookup p (unblockTask p _) = _
      rw [hub2]
      exact happ _ hnone2
    · show p ∈ (unblockTask p _).map Prod.fst
      rw [hub2, List.map_append]
      exact List.mem_append_right _ (by simp)

/-- Claim C10, witness: in the single-task batch of `qsendTaskA`, whose
QSEND (and a hypothetical first EXPOSE) names the absent peer "B", the
dispatch inserts the default entry for "B" and raises no error. -/
theorem C10_witness :
    ((apply_next_instr "A" (initShot [qsendTaskA] []) (.qsend [0] ["B"])).error = none ∧
      alookup "B" (apply_next_instr "A" (initShot [qsendTaskA] []) (.qsend [0] ["B"])).Ts =
        some { (default : TaskState) with blocked := false } ∧
      "B" ∈ (apply_next_instr "A" (initShot [qsendTaskA] [])
        (.qsend [0] ["B"])).Ts.map Prod.fst) ∧
    ((apply_next_instr "A" (initShot [qsendTaskA] []) (.expose [0] ["B"])).error = none ∧
      alookup "B" (apply_next_instr "A" (initShot [qsendTaskA] []) (.expose [0] ["B"])).Ts =
        some { (default : TaskState) with blocked := false } ∧
      "B" ∈ (apply_next_instr "A" (initShot [qsendTaskA] [])
        (.expose [0] ["B"])).Ts.map Prod.fst) :=
  C10_theorem (initShot [qsendTaskA] []) "A" "B"
    { id := "A", circuit := [.qsend [0] ["B"]], cursor := 0,
      zero_qubit := 0, zero_clbit := 0 }
    [0] rfl rfl rfl rfl

/-- Claim C3, counterexample.  With oracle `[0, 1]` the QSEND measures the
data qubit to 0 and the ancilla to 1, pushing `[top = 1 (ancilla),
0 (data)]` onto `qc_meas["A"]`.  In the full run the QRECV applies the X
correction on qubit `n-1 = 3` and no Z correction: the first popped value is
the *ancilla* outcome 1, not the data outcome 0, so the pops happen in order
(ancilla, data) — the claim's asserted pop order "(data, ancilla)" is false
at this input (it would predict no X and a Z instead). -/
theorem C3_counterexample :
    (apply_next_instr "A" (initShot [qsendTaskA, recvTaskB] [0, 1])
        (.qsend [0] ["B"])).G.qc_meas = [("A", [1, 0])] ∧
    (execute_shot 6 [qsendTaskA, recvTaskB] [0, 1]).map
        (fun s => (decide (Event.gate "x" [3] ∈ s.events),
                   decide (Event.gate "z" [3] ∈ s.events)))
      = some (true, false) := ⟨rfl, by rfl⟩

/-- Claim C3, amended.  A QSEND by task A pushes exactly two values onto
`qc_meas[A]`: the measured data-qubit outcome first and the measured ancilla
outcome second (so the ancilla outcome is on top of the stack).  The
matching QRECV pops exactly those two values in order (ancilla, data) — the
reverse of the push order — restoring the previous stack, and applies the X
correction on qubit `n-1` when the first popped (ancilla) value is 1 and the
Z correction when the second popped (data) value is 1. -/
theorem C3_theorem (s : Shot) (A B : String) (TA TB : TaskState)
    (qsA qsB : List Int) (s1 s2 : Shot)
    (herr : s.error = none)
    (hTA : alookup A s.Ts = some TA) (hidA : TA.id = A)
    (hTB : alookup B s.Ts = some TB)
    (hs1 : s1 = apply_next_instr A s (.qsend qsA [B]))
    (hs2 : s2 = apply_next_instr B s1 (.qrecv qsB [A])) :
    alookupD A [] s1.G.qc_meas =
      measVal s.rng 1 :: measVal s.rng 0 :: alookupD A [] s.G.qc_meas ∧
    alookupD A [] s2.G.qc_meas = alookupD A [] s.G.qc_meas ∧
    s2.events = s1.events ++
      (if measVal s.rng 1 ≠ 0 then [Event.gate "x" [s.G.n_qubits - 1]] else []) ++
      (if measVal s.rng 0 ≠ 0 then [Event.gate "z" [s.G.n_qubits - 1]] else []) ++
      [.gate "swap" [s.G.n_qubits - 1, (qsB.headD 0) + TB.zero_qubit],
       .meas (s.G.n_qubits - 1) (measVal s1.rng 0)] ++
      (if measVal s1.rng 0 ≠ 0 then [Event.gate "x" [s.G.n_qubits - 1]] else []) := by
  have hq : s1 = { s with
      G := { s.G with qc_meas := aset A (measVal s.rng 1 :: measVal s.rng 0 :: alookupD A [] s.G.qc_meas) s.G.qc_meas },
      events := s.events ++
        [.gate "h" [s.G.n_qubits - 2], .gate "cx" [s.G.n_qubits - 2, s.G.n_qubits - 1],
         .gate "cx" [(qsA.headD 0) + TA.zero_qubit, s.G.n_qubits - 2],
         .gate "h" [(qsA.headD 0) + TA.zero_qubit],
         .meas ((qsA.headD 0) + TA.zero_qubit) (measVal s.rng 0),
         .meas (s.G.n_qubits - 2) (measVal s.rng 1)] ++
        (if measVal s.rng 0 ≠ 0
          then [Event.gate "x" [(qsA.headD 0) + TA.zero_qubit]] else []) ++
        (if measVal s.rng 1 ≠ 0 then [Event.gate "x" [s.G.n_qubits - 2]] else []),
      rng := s.rng.drop 2,
      Ts := unblockTask B s.Ts } := by
    rw [hs1, apply_next_instr, herr]
    simp only [Option.isSome_none, Bool.false_eq_true, if_false, hTA, hidA]
    rfl
  have h1 : alookupD A [] s1.G.qc_meas =
      measVal s.rng 1 :: measVal s.rng 0 :: alookupD A [] s.G.qc_meas := by
    rw [hq]
    exact alookupD_aset_self _ _ _ _
  have hTB1 : alookup B s1.Ts = some { TB with blocked := false } := by
    rw [hq]
    show alookup B (unblockTask B s.Ts) = _
    rw [unblockTask, acontains, hTB]
    simp only [Option.isSome_some, if_true, alookup_aupdate, if_pos rfl, hTB]
    rfl
  have herr1 : s1.error = none := by rw [hq]; exact herr
  have hcont : acontains A s1.G.qc_meas = true := by
    rw [hq]
    show acontains A (aset A _ s.G.qc_meas) = true
    rw [acontains, alookup_aset_self]
    rfl
  have hrec : s2 = { s1 with
      G := { s1.G with qc_meas := aset A (alookupD A [] s.G.qc_meas) s1.G.qc_meas },
      events := s1.events ++
        (if measVal s.rng 1 ≠ 0 then [Event.gate "x" [s1.G.n_qubits - 1]] else []) ++
        (if measVal s.rng 0 ≠ 0 then [Event.gate "z" [s1.G.n_qubits - 1]] else []) ++
        [.gate "swap" [s1.G.n_qubits - 1, (qsB.headD 0) + TB.zero_qubit],
         .meas (s1.G.n_qubits - 1) (measVal s1.rng 0)] ++
        (if measVal s1.rng 0 ≠ 0 then [Event.gate "x" [s1.G.n_qubits - 1]] else []),
      rng := s1.rng.drop 1 } := by
    rw [hs2, apply_next_instr, herr1]
    simp only [Option.isSome_none, Bool.false_eq_true, if_false, hTB1, List.headD_cons]
    rw [if_neg (not_not_intro hcont)]
    rw [h1]
  have hnq : s1.G.n_qubits = s.G.n_qubits := by rw [hq]
  refine ⟨h1, ?_, ?_⟩
  · rw [hrec]
    show alookupD A [] (aset A (alookupD A [] s.G.qc_meas) s1.G.qc_meas) = _
    exact alookupD_aset_self _ _ _ _
  · rw [hrec, hnq]

/-- Claim C3, witness for the amended theorem: on the teleport batch with
oracle `[0, 1]` (data outcome 0, ancilla outcome 1) the QSEND leaves
`qc_meas["A"] = [1, 0]`, the QRECV empties it again, and the correction
events are exactly an X on the communication qubit 3 (first pop = ancilla
= 1) followed by the swap and the reset measurement, with no Z. -/
theorem C3_witness :
    alookupD "A" [] (apply_next_instr "A" (initShot [qsendTaskA, recvTaskB] [0, 1])
        (.qsend [0] ["B"])).G.qc_meas = [1, 0] ∧
    alookupD "A" [] (apply_next_instr "B"
        (apply_next_instr "A" (initShot [qsendTaskA, recvTaskB] [0, 1]) (.qsend [0] ["B"]))
        (.qrecv [0] ["A"])).G.qc_meas = [] ∧
    (apply_next_instr "B"
        (apply_next_instr "A" (initShot [qsendTaskA, recvTaskB] [0, 1]) (.qsend [0] ["B"]))
        (.qrecv [0] ["A"])).events =
      (apply_next_instr "A" (initShot [qsendTaskA, recvTaskB] [0, 1])
        (.qsend [0] ["B"])).events ++
        [Event.gate "x" [3]] ++ [] ++
        [Event.gate "swap" [3, 1], Event.meas 3 0] ++ [] :=
  C3_theorem (initShot [qsendTaskA, recvTaskB] [0, 1]) "A" "B"
    { id := "A", circuit := [.qsend [0] ["B"]], cursor := 0, zero_qubit := 0, zero_clbit := 0 }
    { id := "B", circuit := [.qrecv [0] ["A"]], cursor := 0, zero_qubit := 1, zero_clbit := 1 }
    [0] [0] _ _ rfl rfl rfl rfl rfl rfl

/-! Properties of the bitstring assembly loop. -/

/-- The fold of `result_bits` never changes the length of the accumulator. -/
theorem result_bits_foldl_length (n : Int) :
    ∀ (creg : List (Int × Bool)) (acc : List Char),
      (creg.foldl (fun bits kv =>
        bits.set (n - kv.1 - 1).toNat (if kv.2 then '1' else '0')) acc).length
        = acc.length := by
  intro creg
  induction creg with
  | nil => intro acc; rfl
  | cons kv rest ih =>
    intro acc
    rw [List.foldl_cons, ih]
    exact List.length_set ..

/-- Positions not targeted by any register entry keep the accumulator's
character. -/
theorem result_bits_foldl_untouched (n : Int) (j : Nat) :
    ∀ (creg : List (Int × Bool)) (acc : List Char),
      (∀ kv ∈ creg, (n - kv.1 - 1).toNat ≠ j) →
      (creg.foldl (fun bits kv =>
        bits.set (n - kv.1 - 1).toNat (if kv.2 then '1' else '0')) acc)[j]?
        = acc[j]? := by
  intro creg
  induction creg with
  | nil => intro acc _; rfl
  | cons kv rest ih =>
    intro acc h
    rw [List.foldl_cons, ih _ (fun kv' hm => h kv' (List.mem_cons_of_mem _ hm))]
    exact List.getElem?_set_ne (h kv (List.mem_cons_self _ _))

/-- A register entry with distinct keys and in-range indices determines the
character written at its position. -/
theorem result_bits_foldl_member (n : Int) (k : Int) (v : Bool) :
    ∀ (creg : List (Int × Bool)) (acc : List Char), (k, v) ∈ creg →
      (creg.map Prod.fst).Nodup →
      (∀ kv ∈ creg, 0 ≤ kv.1 ∧ kv.1 < n) →
      (n - k - 1).toNat < acc.length →
      (creg.foldl (fun bits kv =>
        bits.set (n - kv.1 - 1).toNat (if kv.2 then '1' else '0')) acc)[(n - k - 1).toNat]?
        = some (if v then '1' else '0') := by
  intro creg
  induction creg with
  | nil => intro acc hm; cases hm
  | cons kv rest ih =>
    intro acc hm hnd hrange hlt
    rw [List.foldl_cons]
    rw [List.map_cons, List.nodup_cons] at hnd
    cases hm with
    | head =>
      have hnot : ∀ kv' ∈ rest, (n - kv'.1 - 1).toNat ≠ (n - k - 1).toNat := by
        intro kv' hm' heq
        have h1 := hrange (k, v) (List.mem_cons_self _ _)
        have h2 := hrange kv' (List.mem_cons_of_mem _ hm')
        have heq1 : kv'.1 = k := by omega
        have hx : kv'.1 ∈ rest.map Prod.fst := List.mem_map_of_mem Prod.fst hm'
        exact hnd.1 (heq1 ▸ hx)
      rw [result_bits_foldl_untouched n _ rest _ hnot]
      exact List.getElem?_set_eq_of_lt _ hlt
    | tail _ hm' =>
      have hlen : ((acc.set (n - kv.1 - 1).toNat (if kv.2 then '1' else '0'))).length
          = acc.length := List.length_set ..
      exact ih _ hm' hnd.2 (fun kv' h' => hrange kv' (List.mem_cons_of_mem _ h'))
        (by rw [hlen]; exact hlt)

/-- Claim C8, counterexample.  A batch whose single task has an empty
instruction sequence does not produce the all-zero bitstring: on the first
round the scheduler dispatches the task unconditionally (`finished` starts
false) and `apply_next_instr` dereferences `*T.it` with `it == end` — the
modelled undefined-behaviour marker — so the shot aborts before any
bitstring is assembled, refuting "a batch whose tasks have empty instruction
sequences yields the all-zero bitstring". -/
theorem C8_counterexample :
    (execute_shot 6 [emptyCircTask] []).map (fun s => s.error)
      = some (some "dispatch dereferences the end iterator (C++ UB)") := by rfl

/-- Claim C8, amended.  For in-range, duplicate-free register entries the
emitted bitstring has length exactly `n_clbits`, carries
`creg[k]` at position `n_clbits - k - 1`, and '0' at every position no entry
targets; a batch whose task has a *nonempty* circuit that writes no clbit
emits the all-zero bitstring.  (A task with an empty instruction sequence
instead makes the dispatcher dereference its end iterator — see the
counterexample.) -/
theorem C8_theorem (n : Int) (creg : List (Int × Bool)) (k : Int) (v : Bool)
    (hnd : (creg.map Prod.fst).Nodup)
    (hrange : ∀ kv ∈ creg, 0 ≤ kv.1 ∧ kv.1 < n)
    (hmem : (k, v) ∈ creg) :
    (result_bits n creg).length = n.toNat ∧
    (result_bits n creg)[(n - k - 1).toNat]? = some (if v then '1' else '0') ∧
    (∀ j : Nat, j < n.toNat → (∀ kv ∈ creg, (n - kv.1 - 1).toNat ≠ j) →
      (result_bits n creg)[j]? = some '0') ∧
    (execute_shot 6 [xGateTask] []).map shotString = some ['0', '0'] := by
  have hk := hrange (k, v) hmem
  refine ⟨?_, ?_, ?_, by rfl⟩
  · rw [result_bits, result_bits_foldl_length, List.length_replicate]
  · rw [result_bits]
    refine result_bits_foldl_member n k v creg _ hmem hnd hrange ?_
    rw [List.length_replicate]
    omega
  · intro j hj hnone
    rw [result_bits, result_bits_foldl_untouched n j creg _ hnone]
    simp [List.getElem?_replicate, hj]

/-- Claim C8, witness: register `{0 ↦ 1, 2 ↦ 0}` with `n_clbits = 3` yields
"100" (position `3 - 0 - 1 = 2` carries creg[0]), and the gate-only batch
emits "00". -/
theorem C8_witness :
    (result_bits 3 [(0, true), (2, false)]).length = (3 : Int).toNat ∧
    (result_bits 3 [(0, true), (2, false)])[((3 : Int) - 0 - 1).toNat]? =
      some (if true then '1' else '0') ∧
    (∀ j : Nat, j < (3 : Int).toNat →
      (∀ kv ∈ [((0 : Int), true), (2, false)], ((3 : Int) - kv.1 - 1).toNat ≠ j) →
      (result_bits 3 [(0, true), (2, false)])[j]? = some '0') ∧
    (execute_shot 6 [xGateTask] []).map shotString = some ['0', '0'] :=
  C8_theorem 3 [(0, true), (2, false)] 0 true
    (by simp) (by intro kv h; fin_cases h <;> constructor <;> omega)
    (List.mem_cons_self _ _)

/-! Properties of the shot loop of `simulate`. -/

/-- The fields of a task that `execute_shot_` actually reads; `shots` and
`method` are not among them. -/
def coreEq (t t' : QTask) : Prop :=
  t.id = t'.id ∧ t.num_qubits = t'.num_qubits ∧ t.num_clbits = t'.num_clbits ∧
  t.circuit = t'.circuit

/-- The histogram total of a nonempty list splits off its head count. -/
theorem countsTotal_cons (kv : List Char × Nat) (l : List (List Char × Nat)) :
    countsTotal (kv :: l) = kv.2 + countsTotal l := by
  simp [countsTotal]

/-- Histogram updates add exactly one to the total count. -/
theorem countsTotal_countsAdd (b : List Char) :
    ∀ counts : List (List Char × Nat),
      countsTotal (countsAdd counts b) = countsTotal counts + 1 := by
  intro counts
  induction counts with
  | nil => rfl
  | cons kv rest ih =>
    by_cases hk : kv.1 = b
    · rw [countsAdd, alookupD, alookup, if_pos hk, aset, if_pos hk]
      rw [countsTotal_cons, countsTotal_cons]
      simp only [Option.getD_some]
      omega
    · rw [countsAdd, alookupD, alookup, if_neg hk, aset, if_neg hk]
      rw [countsTotal_cons, countsTotal_cons]
      rw [countsAdd, alookupD] at ih
      omega

/-- A successful run of `n` further shots adds exactly `n` to the histogram
total. -/
theorem runShots_total (fuel : Nat) (qts : List QTask) (oracle : Nat → List Nat) :
    ∀ (n i : Nat) (counts out : List (List Char × Nat)),
      runShots fuel qts oracle i n counts = some out →
      countsTotal out = countsTotal counts + n := by
  intro n
  induction n with
  | zero =>
    intro i counts out h
    rw [runShots] at h
    cases h
    rfl
  | succ m ih =>
    intro i counts out h
    rw [runShots] at h
    cases hx : execute_shot fuel qts (oracle i) with
    | none => simp only [hx] at h; cases h
    | some s =>
      simp only [hx] at h
      by_cases he : s.error.isSome = true
      · rw [if_pos he] at h; cases h
      · rw [if_neg he] at h
        have := ih (i + 1) (countsAdd counts (shotString s)) out h
        rw [countsTotal_countsAdd] at this
        omega

/-- Claim C9.  The shot count of a co-simulated batch comes from
`quantum_tasks[0].config` alone: replacing the `shots` and `method` entries
of every other task (keeping id, qubit/clbit counts and circuit) yields the
identical result document, and a successful simulation aggregates exactly
`t0.shots` shots in its histogram. -/
theorem C9_theorem (fuel : Nat) (t0 : QTask) (ts ts' : List QTask)
    (oracle : Nat → List Nat) (counts : List (List Char × Nat))
    (h : List.Forall₂ coreEq ts ts')
    (hrun : simulate fuel (t0 :: ts) oracle = some counts) :
    simulate fuel (t0 :: ts') oracle = some counts ∧
    countsTotal counts = t0.shots := by
  have hfold : ∀ (l l' : List QTask), List.Forall₂ coreEq l l' →
      ∀ acc, List.foldl initStep acc l = List.foldl initStep acc l' := by
    intro l l' hll
    induction hll with
    | nil => intro acc; rfl
    | @cons a b la lb ha ht ih =>
      intro acc
      rw [List.foldl_cons, List.foldl_cons]
      have hstep : initStep acc a = initStep acc b := by
        rw [initStep, initStep, ha.1, ha.2.1, ha.2.2.1, ha.2.2.2]
      rw [hstep]
      exact ih _
  have hlen : ts.length = ts'.length := h.length_eq
  have hinit : ∀ rng, initShot (t0 :: ts) rng = initShot (t0 :: ts') rng := by
    intro rng
    rw [initShot, initShot]
    rw [List.foldl_cons, List.foldl_cons, hfold ts ts' h]
    simp only [List.length_cons, hlen]
  have hexec : ∀ rng, execute_shot fuel (t0 :: ts) rng
      = execute_shot fuel (t0 :: ts') rng := by
    intro rng
    rw [execute_shot, execute_shot, hinit]
  have hrs : ∀ (n i : Nat) (cnt : List (List Char × Nat)),
      runShots fuel (t0 :: ts) oracle i n cnt = runShots fuel (t0 :: ts') oracle i n cnt := by
    intro n
    induction n with
    | zero => intro i cnt; rfl
    | succ m ih =>
      intro i cnt
      rw [runShots, runShots, hexec (oracle i)]
      cases execute_shot fuel (t0 :: ts') (oracle i) with
      | none => rfl
      | some s =>
        by_cases he : s.error.isSome = true
        · simp only [he, if_true]
        · simp only [he, Bool.false_eq_true, if_false]
          exact ih _ _
  constructor
  · rw [simulate] at *
    rw [← hrs]
    exact hrun
  · rw [simulate] at hrun
    have := runShots_total fuel (t0 :: ts) oracle t0.shots 0 [] counts hrun
    rw [this]
    simp [countsTotal]

/-- Claim C9, witness: changing the second task's `shots` from 5 to 99 and
its `method` leaves the result unchanged, and the histogram totals the first
task's 2 shots. -/
theorem C9_witness :
    simulate 8 [qsendTaskA, { recvTaskB with shots := 99, method := "other" }]
        (fun _ => []) = some [(['0', '0'], 2)] ∧
    countsTotal [(['0', '0'], 2)] = qsendTaskA.shots :=
  C9_theorem 8 qsendTaskA [recvTaskB]
    [{ recvTaskB with shots := 99, method := "other" }] (fun _ => [])
    [(['0', '0'], 2)]
    (List.Forall₂.cons ⟨rfl, rfl, rfl, rfl⟩ List.Forall₂.nil) (by rfl)

/-! Model of `ClassicalChannel::Impl::recv` from
`classical_channel_impl/zmq/zmq_classical_channel.cpp`.  The router socket
delivers (identity, data) frame pairs; per ZMQ, the frames of each dealer
arrive in that dealer's send order, so the pending transport traffic is a
single arrival-ordered list of (sender, data) pairs. -/

/-- Receiver-side channel state: the per-sender buffered queues
(`message_queue`; front of each list is the oldest buffered message) and
the pending arrival-ordered frames the socket will deliver. -/
structure ChanState where
  message_queue : List (String × List String) := []
  incoming : List (String × String) := []

/-- The inner `while (true)` loop of `recv`: pop the next frame; if its
identity matches `origin` return its data, otherwise push the data onto the
sender's buffered queue and keep receiving.  `none` models a receive that
blocks forever because no frame from `origin` is ever delivered. -/
def recvDrain (origin : String) : List (String × String) →
    List (String × List String) → Option (String × ChanState)
  | [], _ => none
  | (id_str, data) :: rest, q =>
    if id_str = origin then some (data, { message_queue := q, incoming := rest })
    else recvDrain origin rest (aset id_str (alookupD id_str [] q ++ [data]) q)

/-- `ClassicalChannel::Impl::recv(origin)`: serve the oldest buffered
message from `origin` if one exists, otherwise drain the socket.  (The C++
`message_queue[origin]` emptiness test default-inserts an empty queue on a
missing key; an empty mapped queue is observationally identical to an
absent one, so the insertion is dropped here.) -/
def recv (origin : String) (st : ChanState) : Option (String × ChanState) :=
  match alookupD origin [] st.message_queue with
  | stored_data :: ds =>
    some (stored_data, { st with message_queue := aset origin ds st.message_queue })
  | [] => recvDrain origin st.incoming st.message_queue

/-- Messages from peer `p` still obtainable at the receiver, oldest first:
the buffered queue for `p` followed by the pending frames from `p` in
arrival (= send) order. -/
def avail (p : String) (st : ChanState) : List String :=
  alookupD p [] st.message_queue ++ (st.incoming.filter (fun m => m.1 = p)).map Prod.snd

theorem filter_cons_fst_eq {p : String} (a : String × String)
    (l : List (String × String)) (h : a.1 = p) :
    (a :: l).filter (fun m => m.1 = p) = a :: l.filter (fun m => m.1 = p) := by
  simp [List.filter_cons, h]

theorem filter_cons_fst_ne {p : String} (a : String × String)
    (l : List (String × String)) (h : ¬ a.1 = p) :
    (a :: l).filter (fun m => m.1 = p) = l.filter (fun m => m.1 = p) := by
  simp [List.filter_cons, h]

theorem recvDrain_some (origin : String) :
    ∀ (inc : List (String × String)) (q : List (String × List String))
      (d : String) (st' : ChanState),
      alookupD origin [] q = [] →
      recvDrain origin inc q = some (d, st') →
      (inc.filter (fun m => m.1 = origin)).map Prod.snd =
          d :: (st'.incoming.filter (fun m => m.1 = origin)).map Prod.snd ∧
      alookupD origin [] st'.message_queue = [] ∧
      (∀ p, p ≠ origin →
        alookupD p [] q ++ (inc.filter (fun m => m.1 = p)).map Prod.snd =
          alookupD p [] st'.message_queue ++
            (st'.incoming.filter (fun m => m.1 = p)).map Prod.snd) := by
  intro inc
  induction inc with
  | nil => intro q d st' _ h; cases h
  | cons frame rest ih =>
    intro q d st' hq h
    obtain ⟨id_str, data⟩ := frame
    rw [recvDrain] at h
    by_cases hid : id_str = origin
    · rw [if_pos hid] at h
      injection h with h1
      injection h1 with hd hst
      refine ⟨?_, ?_, ?_⟩
      · rw [← hst, filter_cons_fst_eq _ _ hid, List.map_cons, hd]
      · rw [← hst]
        exact hq
      · intro p hp
        have hnp : ¬ ((id_str, data).1 = p) := by
          show ¬ id_str = p
          rw [hid]
          exact fun he => hp he.symm
        rw [← hst, filter_cons_fst_ne _ _ hnp]
    · rw [if_neg hid] at h
      have hq' : alookupD origin [] (aset id_str (alookupD id_str [] q ++ [data]) q) = [] := by
        rw [alookupD_aset_ne _ _ hid]
        exact hq
      obtain ⟨ih1, ih2, ih3⟩ := ih _ d st' hq' h
      refine ⟨?_, ih2, ?_⟩
      · rw [filter_cons_fst_ne _ _ hid]
        exact ih1
      · intro p hp
        by_cases hpid : p = id_str
        · have h3 := ih3 p hp
          rw [hpid] at h3 ⊢
          rw [alookupD_aset_self] at h3
          rw [List.append_assoc, List.singleton_append] at h3
          rw [@filter_cons_fst_eq id_str (id_str, data) rest rfl, List.map_cons]
          exact h3
        · have h3 := ih3 p hp
          rw [alookupD_aset_ne _ _ (fun he => hpid he.symm)] at h3
          have hno : ¬ ((id_str, data)).1 = p := fun he => hpid he.symm
          rw [filter_cons_fst_ne _ _ hno]
          exact h3

theorem recvDrain_none (origin : String) :
    ∀ (inc : List (String × String)) (q : List (String × List String)),
      recvDrain origin inc q = none →
      (inc.filter (fun m => m.1 = origin)).map Prod.snd = [] := by
  intro inc
  induction inc with
  | nil => intro q _; rfl
  | cons frame rest ih =>
    intro q h
    obtain ⟨id_str, data⟩ := frame
    rw [recvDrain] at h
    by_cases hid : id_str = origin
    · rw [if_pos hid] at h; cases h
    · rw [if_neg hid] at h
      rw [filter_cons_fst_ne _ _ hid]
      exact ih _ h

/-- Claim C7.  A receive naming peer A returns exactly the head of A's
pending message sequence (buffered messages first, then transport arrivals,
i.e. A's send order), leaving A's tail; messages of every other peer are
preserved, in their own order, for their own later receives.  A receive
returns nothing (blocks) only when no message from A is buffered or
pending. -/
theorem C7_theorem (origin : String) (st : ChanState) :
    (∀ d st', recv origin st = some (d, st') →
      avail origin st = d :: avail origin st' ∧
      (∀ p, p ≠ origin → avail p st' = avail p st)) ∧
    (recv origin st = none → avail origin st = []) := by
  constructor
  · intro d st' h
    rw [recv] at h
    cases hq : alookupD origin [] st.message_queue with
    | cons d0 ds =>
      rw [hq] at h
      injection h with h1
      injection h1 with hd hst
      constructor
      · rw [avail, avail, hq, ← hst, hd]
        simp only [List.cons_append, List.cons.injEq, true_and]
        rw [alookupD_aset_self]
      · intro p hp
        rw [avail, avail, ← hst]
        rw [alookupD_aset_ne _ _ (fun he => hp he.symm)]
    | nil =>
      rw [hq] at h
      obtain ⟨h1, h2, h3⟩ := recvDrain_some origin st.incoming st.message_queue d st' hq h
      constructor
      · rw [avail, avail, hq, h2, h1]
        rfl
      · intro p hp
        rw [avail, avail]
        exact (h3 p hp).symm
  · intro h
    rw [recv] at h
    cases hq : alookupD origin [] st.message_queue with
    | cons d0 ds => rw [hq] at h; cases h
    | nil =>
      rw [hq] at h
      rw [avail, hq]
      rw [recvDrain_none origin st.incoming st.message_queue h]
      rfl

/-- Claim C7, witness: with pending frames `C:m1, A:a1, A:a2` and empty
buffers, `recv "A"` returns `a1`, leaves `a2` available from A, and buffers
`m1` so that C's sequence is untouched. -/
theorem C7_witness :
    avail "A" { incoming := [("C", "m1"), ("A", "a1"), ("A", "a2")] } =
      "a1" :: avail "A" { message_queue := [("C", ["m1"])], incoming := [("A", "a2")] } ∧
    (∀ p, p ≠ "A" →
      avail p { message_queue := [("C", ["m1"])], incoming := [("A", "a2")] } =
        avail p { incoming := [("C", "m1"), ("A", "a1"), ("A", "a2")] }) := by
  have h := C7_theorem "A" { incoming := [("C", "m1"), ("A", "a1"), ("A", "a2")] }
  exact h.1 "a1" { message_queue := [("C", ["m1"])], incoming := [("A", "a2")] } (by rfl)

/-! Model of the quantum-task codec (`src/quantum_task.cpp`): a minimal JSON
value type, the `dump(4)` serializer and a strict single-document parser
standing in for `nlohmann::json`.  Numbers are carried as integers (the
codec only stores and copies parameter values, never computes with them)
and strings are escape-free, which covers every document the claims use. -/

/-- JSON values.  Object fields keep their stored order; the concrete
documents used below list their keys alphabetically, matching nlohmann's
sorted-key object representation. -/
inductive Json where
  | null
  | bool (b : Bool)
  | num (n : Int)
  | str (s : String)
  | arr (elems : List Json)
  | obj (fields : List (String × Json))

/-- Indentation prefix used by `dump(4)`. -/
def spaces (n : Nat) : String := String.mk (List.replicate n ' ')

mutual

/-- `json::dump(4)`: pretty printing with four-space indentation, `": "`
after keys, elements separated by `",\n"`, empty containers printed
inline. -/
def dumpVal (ind : Nat) : Json → String
  | .null => "null"
  | .bool true => "true"
  | .bool false => "false"
  | .num n => toString n
  | .str s => "\"" ++ s ++ "\""
  | .arr [] => "[]"
  | .arr (x :: xs) => "[\n" ++ dumpItems (ind + 4) (x :: xs) ++ "\n" ++ spaces ind ++ "]"
  | .obj [] => "\x7b\x7d"
  | .obj (f :: fs) =>
    "\x7b\n" ++ dumpFields (ind + 4) (f :: fs) ++ "\n" ++ spaces ind ++ "\x7d"

/-- Array elements of `dump(4)`. -/
def dumpItems (ind : Nat) : List Json → String
  | [] => ""
  | [x] => spaces ind ++ dumpVal ind x
  | x :: y :: xs => spaces ind ++ dumpVal ind x ++ ",\n" ++ dumpItems ind (y :: xs)

/-- Object fields of `dump(4)`. -/
def dumpFields (ind : Nat) : List (String × Json) → String
  | [] => ""
  | [(k, v)] => spaces ind ++ "\"" ++ k ++ "\": " ++ dumpVal ind v
  | (k, v) :: f :: fs =>
    spaces ind ++ "\"" ++ k ++ "\": " ++ dumpVal ind v ++ ",\n" ++ dumpFields ind (f :: fs)

end

/-- JSON whitespace skipping. -/
def skipWs : List Char → List Char
  | [] => []
  | c :: rest =>
    if c = ' ' ∨ c = '\n' ∨ c = '\t' ∨ c = '\r' then skipWs rest else c :: rest

/-- Decimal digit test. -/
def isDigitCh (c : Char) : Bool := decide ('0' ≤ c ∧ c ≤ '9')

/-- Value of a digit sequence. -/
def parseNatDigits (ds : List Char) : Nat :=
  ds.foldl (fun a c => a * 10 + (c.toNat - 48)) 0

mutual

/-- Recursive-descent parser for one JSON value, returning the remaining
input; `none` is a parse error (`nlohmann` throws `parse_error`).  The fuel
bounds nesting and is set generously by `parse`. -/
def parseVal : Nat → List Char → Option (Json × List Char)
  | 0, _ => none
  | fuel + 1, cs =>
    match skipWs cs with
    | [] => none
    | c :: rest =>
      if c = 'n' then
        match rest with
        | 'u' :: 'l' :: 'l' :: r => some (.null, r)
        | _ => none
      else if c = 't' then
        match rest with
        | 'r' :: 'u' :: 'e' :: r => some (.bool true, r)
        | _ => none
      else if c = 'f' then
        match rest with
        | 'a' :: 'l' :: 's' :: 'e' :: r => some (.bool false, r)
        | _ => none
      else if c = '"' then
        match (rest.span (fun ch => ¬ ch = '"')).2 with
        | '"' :: r => some (.str (String.mk (rest.span (fun ch => ¬ ch = '"')).1), r)
        | _ => none
      else if c = '-' then
        match rest.span isDigitCh with
        | ([], _) => none
        | (ds, r) => some (.num (-(Int.ofNat (parseNatDigits ds))), r)
      else if isDigitCh c then
        match (c :: rest).span isDigitCh with
        | (ds, r) => some (.num (Int.ofNat (parseNatDigits ds)), r)
      else if c = '[' then
        match skipWs rest with
        | ']' :: r => some (.arr [], r)
        | cs2 =>
          match parseArrItems fuel cs2 with
          | some (xs, r) => some (.arr xs, r)
          | none => none
      else if c = '\x7b' then
        match skipWs rest with
        | '\x7d' :: r => some (.obj [], r)
        | cs2 =>
          match parseObjItems fuel cs2 with
          | some (fs, r) => some (.obj fs, r)
          | none => none
      else none

/-- Parser for the elements of a nonempty array, after the opening
bracket. -/
def parseArrItems : Nat → List Char → Option (List Json × List Char)
  | 0, _ => none
  | fuel + 1, cs =>
    match parseVal fuel cs with
    | none => none
    | some (v, r) =>
      match skipWs r with
      | ',' :: r2 =>
        match parseArrItems fuel r2 with
        | some (xs, r3) => some (v :: xs, r3)
        | none => none
      | ']' :: r2 => some ([v], r2)
      | _ => none

/-- Parser for the fields of a nonempty object, after the opening brace. -/
def parseObjItems : Nat → List Char → Option (List (String × Json) × List Char)
  | 0, _ => none
  | fuel + 1, cs =>
    match skipWs cs with
    | '"' :: rest =>
      match (rest.span (fun ch => ¬ ch = '"')).2 with
      | '"' :: r =>
        match skipWs r with
        | ':' :: r2 =>
          match parseVal fuel r2 with
          | none => none
          | some (v, r3) =>
            match skipWs r3 with
            | ',' :: r4 =>
              match parseObjItems fuel r4 with
              | some (fs, r5) =>
                some ((String.mk (rest.span (fun ch => ¬ ch = '"')).1, v) :: fs, r5)
              | none => none
            | '\x7d' :: r4 => some ([(String.mk (rest.span (fun ch => ¬ ch = '"')).1, v)], r4)
            | _ => none
        | _ => none
      | _ => none
    | _ => none

end

/-- `JSON::parse`: a single document, with nothing but whitespace allowed
after it (trailing content is a parse error, as in nlohmann). -/
def parse (s : String) : Option Json :=
  match parseVal (s.length + 1) s.toList with
  | some (v, rest) => if skipWs rest = [] then some v else none
  | none => none

/-- In-memory quantum task as held by `cunqa::QuantumTask` (fields read and
written by `to_string` / `update_circuit`). -/
structure QuantumTask where
  id : String := ""
  config : Json := .null
  circuit : List Json := []
  sending_to : List String := []
  is_dynamic : Bool := false
  is_distributed : Bool := false

/-- Encoder `cunqa::to_string`: the empty string for an empty circuit,
otherwise the concatenation `config.dump(4) + circuit.dump(4)` — two
pretty-printed JSON documents back to back. -/
def to_string (data : QuantumTask) : String :=
  if data.circuit.isEmpty then "" else dumpVal 0 data.config ++ dumpVal 0 (.arr data.circuit)

/-- `json.contains(key)` (false on non-objects). -/
def jContains (j : Json) (key : String) : Bool :=
  match j with
  | .obj fields => acontains key fields
  | _ => false

/-- `json.at(key)` as an option. -/
def jGet (j : Json) (key : String) : Option Json :=
  match j with
  | .obj fields => alookup key fields
  | _ => none

/-- Element conversion for `get<std::vector<std::string>>`. -/
def strListOf : List Json → Option (List String)
  | [] => some []
  | .str s :: rest => (strListOf rest).map (s :: ·)
  | _ :: _ => none

/-- `get<std::vector<std::string>>`. -/
def getStrList : Json → Option (List String)
  | .arr xs => strListOf xs
  | _ => none

/-- Element conversion for `get<std::vector<double>>` (parameters carried as
integers). -/
def numListOf : List Json → Option (List Int)
  | [] => some []
  | .num n :: rest => (numListOf rest).map (n :: ·)
  | _ :: _ => none

/-- `get<std::vector<double>>`. -/
def getNumList : Json → Option (List Int)
  | .arr xs => numListOf xs
  | _ => none

/-- `get<bool>`. -/
def getBool : Json → Option Bool
  | .bool b => some b
  | _ => none

/-- `instruction.at("name").get<std::string>()`. -/
def getName (inst : Json) : Option String :=
  match inst with
  | .obj fields =>
    match alookup "name" fields with
    | some (.str s) => some s
    | _ => none
  | _ => none

/-- Key set of `cunqa::constants::INSTRUCTIONS_MAP`
(`src/utils/constants.hpp`); `INSTRUCTIONS_MAP.at(name)` throws on any name
outside this list. -/
def instructionNames : List String :=
  ["unitary", "measure", "id", "x", "y", "z", "h", "sx", "rx", "ry", "rz", "p",
   "u1", "r", "u", "u3", "swap", "cx", "cy", "cz", "ecr", "crx", "cry", "crz",
   "rxx", "ryy", "rzz", "rzx", "cp", "cu1", "cu", "cu3", "cecr",
   "c_if_x", "c_if_y", "c_if_z", "c_if_h", "c_if_sx", "c_if_rx", "c_if_ry",
   "c_if_rz", "c_if_p", "c_if_u", "c_if_u1", "c_if_cx", "c_if_cy", "c_if_cz",
   "c_if_cp", "c_if_cu", "c_if_cu1", "c_if_cu3", "c_if_ecr", "c_if_swap",
   "c_if_rxx", "c_if_ryy", "c_if_rzz", "c_if_rzx", "c_if_cerc", "c_if_cswap",
   "measure_and_send", "recv", "qsend", "qrecv"]

/-- `instruction.at("params")[0] = v`: requires a present array-valued
`params` field (a missing field throws, assigning into an empty array
extends it, as nlohmann's non-const `operator[]` does). -/
def updateInstParams (inst : Json) (v : Int) : Option Json :=
  match inst with
  | .obj fields =>
    match alookup "params" fields with
    | some (.arr ps) => some (.obj (aset "params" (.arr (.num v :: ps.drop 1)) fields))
    | _ => none
  | _ => none

/-- The instruction walk of `QuantumTask::update_params_`: RX/RY/RZ
instructions consume the next update value into `params[0]`; the names of
the explicit no-op cases and all other known opcodes are skipped; an
unknown name throws (`INSTRUCTIONS_MAP.at`), and indexing the update vector
out of bounds (more RX/RY/RZ instructions than supplied values) is C++
undefined behaviour, modelled as failure. -/
def updParamsGo : List Json → List Int → Nat → Option (List Json)
  | [], _, _ => some []
  | inst :: rest, params, counter =>
    match getName inst with
    | none => none
    | some name =>
      if name ∈ instructionNames then
        if name = "rx" ∨ name = "ry" ∨ name = "rz" then
          if counter < params.length then
            match updateInstParams inst (params.getD counter 0) with
            | some inst2 => (updParamsGo rest params (counter + 1)).map (inst2 :: ·)
            | none => none
          else none
        else (updParamsGo rest params counter).map (inst :: ·)
      else none

/-- `QuantumTask::update_params_`: throws on an empty circuit, otherwise
walks the instructions with the counter starting at zero. -/
def update_params_ (circuit : List Json) (params : List Int) : Option (List Json) :=
  if circuit.isEmpty then none else updParamsGo circuit params 0

/-- The branch structure of `QuantumTask::update_circuit` applied to an
already-parsed document: a document with both `instructions` and `config`
replaces circuit/config/sending_to/is_dynamic (the `is_distributed = true`
path reads `$STORE/.cunqa/communications.json` and is outside this model —
the claims use documents without that flag); a document with `params`
rewrites the parameters; anything else throws "Incorrect format of the
circuit.". -/
def interpretTaskDoc (t : QuantumTask) (j : Json) : Option QuantumTask :=
  if jContains j "instructions" ∧ jContains j "config" then
    match jGet j "instructions" with
    | some (.arr insts) =>
      match (if jContains j "sending_to"
              then getStrList ((jGet j "sending_to").getD .null) else some []) with
      | none => none
      | some sending_to =>
        match (if jContains j "is_dynamic"
                then getBool ((jGet j "is_dynamic").getD .null) else some false) with
        | none => none
        | some is_dynamic =>
          match (if jContains j "is_distributed"
                  then getBool ((jGet j "is_distributed").getD .null) else some false) with
          | none => none
          | some is_distributed =>
            if is_distributed then none
            else some { t with
              circuit := insts,
              config := (jGet j "config").getD .null,
              sending_to := sending_to,
              is_dynamic := is_dynamic,
              is_distributed := false }
    | _ => none
  else if jContains j "params" then
    match getNumList ((jGet j "params").getD .null) with
    | none => none
    | some ps => (update_params_ t.circuit ps).map (fun c => { t with circuit := c })
  else none

/-- `QuantumTask::update_circuit`: parse the wire string, then interpret the
document. -/
def update_circuit (t : QuantumTask) (quantum_task : String) : Option QuantumTask :=
  match parse quantum_task with
  | none => none
  | some j => interpretTaskDoc t j

/-! Concrete codec values and properties. -/

/-- Sample config document, keys alphabetical as nlohmann stores them. -/
def sampleConfig : Json :=
  .obj [("method", .str "statevector"), ("num_clbits", .num 1),
        ("num_qubits", .num 1), ("shots", .num 10)]

/-- Sample one-gate instruction. -/
def sampleInst : Json := .obj [("name", .str "x"), ("qubits", .arr [.num 0])]

/-- Sample valid task with a nonempty circuit. -/
def sampleTask : QuantumTask := { id := "t", config := sampleConfig, circuit := [sampleInst] }

/-- Parametric `u1` instruction with the given parameter. -/
def u1Inst (v : Int) : Json :=
  .obj [("name", .str "u1"), ("params", .arr [.num v]), ("qubits", .arr [.num 0])]

/-- Parametric `rx` instruction with the given parameter. -/
def rxInst (v : Int) : Json :=
  .obj [("name", .str "rx"), ("params", .arr [.num v]), ("qubits", .arr [.num 0])]

/-- First entry of an instruction's `params` array, for observing updates. -/
def paramHead (inst : Json) : Option Int :=
  match inst with
  | .obj fields =>
    match alookup "params" fields with
    | some (.arr (.num v :: _)) => some v
    | _ => none
  | _ => none

/-- Test for the opcodes `update_params_` actually rewrites. -/
def isRot (inst : Json) : Bool :=
  match getName inst with
  | some n => n = "rx" ∨ n = "ry" ∨ n = "rz"
  | none => false

/-- Number of `rx`/`ry`/`rz` instructions in a circuit prefix; the walk's
counter value when it reaches the instruction after that prefix. -/
def rotCount (l : List Json) : Nat := (l.filter isRot).length

set_option maxRecDepth 40000 in
/-- Claim C5.  The encoder's output is not accepted by the decoder: for the
valid one-instruction task, `to_string` emits `config.dump(4)` immediately
followed by `circuit.dump(4)`; the config document alone parses fine, but
the concatenation is trailing content after a complete JSON document, so
`JSON::parse` — called on every received task message by
`CunqaExecutor::run` — and `update_circuit` both reject it, and an empty
circuit encodes to the empty string, which is equally unparseable.  Hence
`decode(encode(x)) == x` never holds (and `to_string` does not even emit
the `id`, `sending_to` or `is_dynamic` fields the claim expects to round
trip). -/
theorem C5_theorem :
    to_string sampleTask = dumpVal 0 sampleConfig ++ dumpVal 0 (.arr [sampleInst]) ∧
    parse (dumpVal 0 sampleConfig) = some sampleConfig ∧
    parse (to_string sampleTask) = none ∧
    update_circuit { id := "t" } (to_string sampleTask) = none ∧
    to_string { sampleTask with circuit := [] } = "" ∧
    parse "" = none := ⟨rfl, rfl, rfl, rfl, rfl, rfl⟩

/-- Claim C6, counterexample.  Updating the circuit `[u1(7), rx(3)]` with
the single value 9 leaves the `u1` instruction — the *first parametric
instruction in insertion order* — untouched and instead overwrites the `rx`
parameter: the walk of `update_params_` only treats `rx`/`ry`/`rz` as
parametric, so the claimed "first k parametric instructions by position"
rule (which predicts `[u1(9), rx(3)]`) is false at this input. -/
theorem C6_counterexample :
    (update_params_ [u1Inst 7, rxInst 3] [9]).map (fun l => l.map paramHead)
      = some [some 7, some 9] ∧
    some [some (7 : Int), some 9] ≠ some [some (9 : Int), some 3] := by
  refine ⟨rfl, ?_⟩
  simp

theorem getNumList_map_num (ps : List Int) :
    getNumList (.arr (ps.map Json.num)) = some ps := by
  rw [getNumList]
  induction ps with
  | nil => rfl
  | cons p rest ih =>
    rw [List.map_cons, numListOf, ih]
    rfl

/-- How `rotCount` grows over a cons cell. -/
theorem rotCount_cons (inst : Json) (l : List Json) :
    rotCount (inst :: l) = (if isRot inst then 1 else 0) + rotCount l := by
  rw [rotCount, rotCount, List.filter_cons]
  by_cases h : isRot inst
  · simp [h]
    omega
  · simp [h]

/-- Per-index description of the instruction walk of `update_params_`. -/
theorem updParamsGo_spec :
    ∀ (l : List Json) (params : List Int) (c : Nat) (out : List Json),
      updParamsGo l params c = some out →
      out.length = l.length ∧
      ∀ i inst, l[i]? = some inst →
        (isRot inst = true →
          out[i]? = updateInstParams inst (params.getD (c + rotCount (l.take i)) 0)) ∧
        (isRot inst = false → out[i]? = some inst) := by
  intro l
  induction l with
  | nil =>
    intro params c out h
    rw [updParamsGo] at h
    cases h
    exact ⟨rfl, fun i inst h => by cases h⟩
  | cons inst rest ih =>
    intro params c out h
    rw [updParamsGo] at h
    cases hn : getName inst with
    | none => simp only [hn] at h; cases h
    | some name =>
      simp only [hn] at h
      by_cases hmem : name ∈ instructionNames
      · rw [if_pos hmem] at h
        by_cases hrot : name = "rx" ∨ name = "ry" ∨ name = "rz"
        · rw [if_pos hrot] at h
          have hR : isRot inst = true := by
            rw [isRot, hn]
            simpa using hrot
          by_cases hlt : c < params.length
          · rw [if_pos hlt] at h
            cases hu : updateInstParams inst (params.getD c 0) with
            | none => simp only [hu] at h; cases h
            | some inst2 =>
              simp only [hu] at h
              cases hgo : updParamsGo rest params (c + 1) with
              | none => simp only [hgo, Option.map_none'] at h; cases h
              | some out2 =>
                simp only [hgo, Option.map_some'] at h
                injection h with h2
                obtain ⟨ihl, ihs⟩ := ih params (c + 1) out2 hgo
                constructor
                · rw [← h2]
                  simp [ihl]
                · intro i instr hi
                  cases i with
                  | zero =>
                    rw [List.getElem?_cons_zero] at hi
                    injection hi with hi
                    subst hi
                    refine ⟨fun _ => ?_, fun hF => ?_⟩
                    · rw [← h2, List.getElem?_cons_zero, List.take_zero]
                      rw [rotCount, List.filter_nil, List.length_nil, Nat.add_zero, hu]
                    · rw [hR] at hF; cases hF
                  | succ j =>
                    rw [List.getElem?_cons_succ] at hi
                    have hspec := ihs j instr hi
                    have htake : rotCount ((inst :: rest).take (j + 1))
                        = 1 + rotCount (rest.take j) := by
                      rw [List.take_succ_cons, rotCount_cons, hR]
                      simp
                    refine ⟨fun hT => ?_, fun hF => ?_⟩
                    · rw [← h2, List.getElem?_cons_succ, (hspec.1 hT), htake]
                      have : c + 1 + rotCount (List.take j rest)
                          = c + (1 + rotCount (List.take j rest)) := by omega
                      rw [this]
                    · rw [← h2, List.getElem?_cons_succ]
                      exact hspec.2 hF
          · rw [if_neg hlt] at h; cases h
        · rw [if_neg hrot] at h
          have hR : isRot inst = false := by
            rw [isRot, hn]
            simpa using hrot
          cases hgo : updParamsGo rest params c with
          | none => simp only [hgo, Option.map_none'] at h; cases h
          | some out2 =>
            simp only [hgo, Option.map_some'] at h
            injection h with h2
            obtain ⟨ihl, ihs⟩ := ih params c out2 hgo
            constructor
            · rw [← h2]
              simp [ihl]
            · intro i instr hi
              cases i with
              | zero =>
                rw [List.getElem?_cons_zero] at hi
                injection hi with hi
                subst hi
                refine ⟨fun hT => ?_, fun _ => ?_⟩
                · rw [hR] at hT; cases hT
                · rw [← h2, List.getElem?_cons_zero]
              | succ j =>
                rw [List.getElem?_cons_succ] at hi
                have hspec := ihs j instr hi
                have htake : rotCount ((inst :: rest).take (j + 1))
                    = rotCount (rest.take j) := by
                  rw [List.take_succ_cons, rotCount_cons, hR]
                  simp
                refine ⟨fun hT => ?_, fun hF => ?_⟩
                · rw [← h2, List.getElem?_cons_succ, (hspec.1 hT), htake]
                · rw [← h2, List.getElem?_cons_succ]
                  exact hspec.2 hF
      · rw [if_neg hmem] at h; cases h

/-- Claim C6, amended.  A parametric update with `k` values walks the
decoded circuit and overwrites `params[0]` of every `rx`/`ry`/`rz`
instruction — the i-th such instruction (in insertion order) receiving the
i-th value — while every other instruction, including other parametric
opcodes such as `u1`/`u2`/`u3`/`crx`, and every other field of the task
(id, config, sending_to, is_dynamic) is left unchanged; the walk visits
*all* `rx`/`ry`/`rz` instructions regardless of `k`, so a successful update
requires at least as many values as such instructions (a shorter list
indexes the update vector out of bounds). -/
theorem C6_theorem (t : QuantumTask) (params : List Int) (out : List Json)
    (h : update_params_ t.circuit params = some out) :
    interpretTaskDoc t (.obj [("params", .arr (params.map Json.num))])
      = some { t with circuit := out } ∧
    out.length = t.circuit.length ∧
    ∀ i inst, t.circuit[i]? = some inst →
      (isRot inst = true →
        out[i]? = updateInstParams inst (params.getD (rotCount (t.circuit.take i)) 0)) ∧
      (isRot inst = false → out[i]? = some inst) := by
  have hgo : updParamsGo t.circuit params 0 = some out := by
    rw [update_params_] at h
    by_cases he : t.circuit.isEmpty
    · rw [if_pos he] at h; cases h
    · rw [if_neg he] at h; exact h
  obtain ⟨hl, hs⟩ := updParamsGo_spec t.circuit params 0 out hgo
  refine ⟨?_, hl, fun i inst hi => ?_⟩
  · rw [interpretTaskDoc]
    rw [if_neg (by simp [jContains, acontains, alookup])]
    rw [if_pos (by simp [jContains, acontains, alookup])]
    have : jGet (.obj [("params", .arr (params.map Json.num))]) "params"
        = some (.arr (params.map Json.num)) := by
      simp [jGet, alookup]
    rw [this]
    show (match getNumList (.arr (params.map Json.num)) with
      | none => none
      | some ps => (update_params_ t.circuit ps).map (fun c => { t with circuit := c }))
      = some { t with circuit := out }
    rw [getNumList_map_num]
    show (update_params_ t.circuit params).map (fun c => { t with circuit := c })
      = some { t with circuit := out }
    rw [h]
    rfl
  · have := hs i inst hi
    simpa using this

/-- Claim C6, witness for the amended theorem: the update `[9]` applied to
`[u1(7), rx(3)]` yields `[u1(7), rx(9)]` through the document path, with
the `u1` untouched and the `rx` receiving value 9. -/
theorem C6_witness :
    interpretTaskDoc { circuit := [u1Inst 7, rxInst 3] }
        (.obj [("params", .arr (([9] : List Int).map Json.num))])
      = some { circuit := [u1Inst 7, rxInst 9] } ∧
    [u1Inst 7, rxInst 9].length = [u1Inst 7, rxInst 3].length ∧
    [u1Inst 7, rxInst 9][0]? = some (u1Inst 7) ∧
    [u1Inst 7, rxInst 9][1]? =
      updateInstParams (rxInst 3)
        (([9] : List Int).getD (rotCount ([u1Inst 7, rxInst 3].take 1)) 0) := by
  have h := C6_theorem { circuit := [u1Inst 7, rxInst 3] } [9] [u1Inst 7, rxInst 9] (by rfl)
  exact ⟨h.1, h.2.1, (h.2.2 0 (u1Inst 7) rfl).2 rfl, (h.2.2 1 (rxInst 3) rfl).1 rfl⟩

end Cunqa
